import Mathlib

/-!
Shallow embedding of `app/services/vector_db.py` (`VectorDBService`).

Vectors are modelled as lists of rationals, an exact stand-in for the
float32 arrays NumPy and FAISS manipulate.  The sentence-transformer
embedding model is external to the repository, so every operation that
calls `self.embedding_model.encode` is parameterised by the encoder's
result (`none` models the call raising).  The FAISS `IndexFlatIP` is an
exact inner-product index: its `search` is modelled as sorting all
stored vectors by inner product with the query, descending, taking the
requested number of candidates and padding with label `-1` entries when
more candidates are requested than vectors exist (FAISS pads exactly
like this).  The filesystem is modelled as an association list from file
names to file contents, so that `_save_index` / `_load_index` /
`clear_index` can be stated faithfully.
-/

namespace VectorDB

/-- An embedding vector: a row of rationals (exact model of a float32 row). -/
abbrev Vec := List ℚ

/-- Inner product of two vectors, the score `faiss.IndexFlatIP` computes. -/
def dot (a b : Vec) : ℚ := (List.zipWith (fun x y => x * y) a b).sum

/-- Sum of squares of the entries: the square of the Euclidean norm. -/
def sumSq (a : Vec) : ℚ := (a.map (fun x => x * x)).sum

/-- Rational square root via `Nat.sqrt`, exact whenever the argument is the
square of a rational (in particular `ratSqrt 1 = 1` and `ratSqrt 0 = 0`).
It stands in for the float `np.linalg.norm` square root. -/
def ratSqrt (q : ℚ) : ℚ := (Nat.sqrt q.num.toNat : ℚ) / (Nat.sqrt q.den : ℚ)

/-- Row normalization, line 58: `embeddings / np.linalg.norm(embeddings, axis=1,
keepdims=True)`.  NumPy float division by a zero norm emits non-finite values
but raises no exception; in this exact model division by zero yields zeros,
which likewise raises nothing. -/
def normalizeRow (v : Vec) : Vec := v.map (fun x => x / ratSqrt (sumSq v))

/-- Contents of a file the service writes or reads. -/
inductive FileData
  /-- `faiss.write_index` output, written at `f"{index_path}.faiss"`. -/
  | faissFile (vectors : List Vec)
  /-- Pickled `{"review_ids": ..., "review_texts": ...}`, written at
  `f"{index_path}.meta"`. -/
  | metaFile (ids : List Int) (texts : List String)
  /-- A legacy pickled TF-IDF artifact at `f"{index_path}.pkl"`; only
  `_load_index` ever looks for this name and this code never writes it. -/
  | pklFile (ids : List Int) (texts : List String)
deriving DecidableEq, Repr

/-- The filesystem: an association list from file name to contents. -/
abbrev FS := List (String × FileData)

/-- Read a file if it exists (`os.path.exists` + `open`). -/
def fsGet (fs : FS) (name : String) : Option FileData :=
  match fs.find? (fun p => p.1 == name) with
  | some p => some p.2
  | none => none

/-- Write (create or overwrite) a file. -/
def fsWrite (fs : FS) (name : String) (d : FileData) : FS :=
  (name, d) :: fs.filter (fun p => p.1 != name)

/-- Delete a file if present (`os.remove` guarded by `os.path.exists`). -/
def fsRemove (fs : FS) (name : String) : FS :=
  fs.filter (fun p => p.1 != name)

/-- `settings.faiss_index_path`, default `"./data/faiss_index"`. -/
def indexPath : String := "./data/faiss_index"

/-- In-memory state of a `VectorDBService` instance plus the filesystem it
owns: `self.index` contents (`vectors`, with `index.ntotal = vectors.length`),
`self.review_ids`, `self.review_texts`, and the saved artifacts. -/
structure State where
  vectors : List Vec
  review_ids : List Int
  review_texts : List String
  files : FS
deriving DecidableEq, Repr

/-- The state of a freshly constructed instance before `_load_index`, over an
empty filesystem. -/
def emptyState : State := ⟨[], [], [], []⟩

/-- `_save_index` (lines 217-239): writes the FAISS index at
`f"{index_path}.faiss"` and the pickled metadata at `f"{index_path}.meta"`. -/
def saveIndex (s : State) : State :=
  { s with
      files := fsWrite (fsWrite s.files (indexPath ++ ".faiss") (.faissFile s.vectors))
        (indexPath ++ ".meta") (.metaFile s.review_ids s.review_texts) }

/-- `_load_index` (lines 241-267): looks for `f"{index_path}.pkl"` — a file
`_save_index` never writes.  If it exists, the branch assigns
`self.review_ids` and `self.review_texts` from the pickle and then evaluates
`self.vectorizer` (the default argument of `metadata.get("vectorizer", ...)`),
an attribute no method ever defines, so an `AttributeError` is raised and the
handler resets `review_ids` and `review_texts` to `[]`.  The FAISS index is
never read back in either branch. -/
def loadIndex (s : State) : State :=
  match fsGet s.files (indexPath ++ ".pkl") with
  | some _ => { s with review_ids := [], review_texts := [] }
  | none => s

/-- Construction of a fresh `VectorDBService` over an existing filesystem
(`__init__`, lines 21-37): empty FAISS index, empty metadata, then
`_load_index`. -/
def startup (fs : FS) : State :=
  loadIndex { vectors := [], review_ids := [], review_texts := [], files := fs }

/-- `add_reviews` (lines 39-74).  `encoded` is the result of
`self.embedding_model.encode(texts)` (`none` models the external call
raising, in which case the handler re-raises `VectorDBException`).  The
returned first component is `some msg` exactly when the call raises; the
second component is the in-memory state the caller observes afterwards. -/
def addReviews (encoded : Option (List Vec)) (ids : List Int)
    (texts : List String) (s : State) : Option String × State :=
  if ids.isEmpty || texts.isEmpty then (none, s)
  else
    match encoded with
    | none => (some "Failed to add reviews to vector database", s)
    | some rows =>
      let s1 : State :=
        { s with vectors := s.vectors ++ rows.map normalizeRow,
                 review_ids := s.review_ids ++ ids,
                 review_texts := s.review_texts ++ texts }
      (none, saveIndex s1)

/-- First index of `x` in a list: Python's `list.index`, only ever called
under an `x in list` guard. -/
def listIndex (x : Int) : List Int → Nat
  | [] => 0
  | a :: t => if a = x then 0 else listIndex x t + 1

/-- `remove_review` (lines 165-193).  When the id is present, line 185 sets
`review_ids[idx] = -1`; line 186 then sets `review_texts[idx] = ""`, which
raises `IndexError` if `review_texts` is shorter than `idx + 1`, and the
handler returns `False` with `review_ids` already mutated. -/
def removeReview (review_id : Int) (s : State) : Bool × State :=
  if review_id ∈ s.review_ids then
    let idx := listIndex review_id s.review_ids
    let ids1 := s.review_ids.set idx (-1)
    if idx < s.review_texts.length then
      (true, { s with review_ids := ids1, review_texts := s.review_texts.set idx "" })
    else
      (false, { s with review_ids := ids1 })
  else (false, s)

/-- `get_review_by_id` (lines 145-163): membership test on `review_ids`, then
`review_ids.index` and `review_texts[idx]`; any exception is caught and
`None` is returned. -/
def getReviewById (review_id : Int) (s : State) : Option (Int × String) :=
  if review_id ∈ s.review_ids then
    match s.review_texts[listIndex review_id s.review_ids]? with
    | some t => some (review_id, t)
    | none => none
  else none

/-- The two numeric fields of `get_stats` (lines 195-215): live count
(`rid != -1`) and `index.ntotal`. -/
structure Stats where
  total_reviews : Nat
  total_vectors : Nat
deriving DecidableEq, Repr

/-- `get_stats`, numeric fields. -/
def getStats (s : State) : Stats :=
  ⟨(s.review_ids.filter (fun r => r != -1)).length, s.vectors.length⟩

/-- Number of live (non-sentinel) entries, the spec's `live_count`. -/
def liveCount (s : State) : Nat :=
  (s.review_ids.filter (fun r => r != -1)).length

/-- `clear_index` (lines 269-289): fresh FAISS index, empty metadata, delete
both saved artifacts. -/
def clearIndex (s : State) : State :=
  { vectors := [], review_ids := [], review_texts := [],
    files := fsRemove (fsRemove s.files (indexPath ++ ".faiss")) (indexPath ++ ".meta") }

/-- Descending-score order on FAISS candidates `(label, score)`. -/
def scoreDesc (a b : Int × ℚ) : Prop := b.2 ≤ a.2

instance : DecidableRel scoreDesc := fun a b => inferInstanceAs (Decidable (b.2 ≤ a.2))

instance : IsTotal (Int × ℚ) scoreDesc := ⟨fun a b => le_total b.2 a.2⟩

instance : IsTrans (Int × ℚ) scoreDesc := ⟨fun _ _ _ h h2 => le_trans h2 h⟩

/-- All candidate pairs `(slot index, inner product with the query)` of an
`IndexFlatIP` holding `vecs`. -/
def ipScores (vecs : List Vec) (q : Vec) : List (Int × ℚ) :=
  vecs.enum.map (fun p => ((p.1 : Int), dot p.2 q))

/-- Model of `faiss.IndexFlatIP.search` for one query: exact inner-product
scores sorted descending, truncated to `kReq` entries; when `kReq` exceeds
the number of stored vectors, FAISS pads the remaining slots with label
`-1` (the padding score is never observed downstream, since the caller skips
negative labels). -/
def faissSearch (vecs : List Vec) (q : Vec) (kReq : Nat) : List (Int × ℚ) :=
  (List.insertionSort scoreDesc (ipScores vecs q)).take kReq
    ++ List.replicate (kReq - vecs.length) ((-1 : Int), (0 : ℚ))

/-- The `k` argument passed to `self.index.search` at line 105:
`min(k * 2, len(self.review_ids))`. -/
def requestedK (s : State) (k : Nat) : Nat := min (k * 2) s.review_ids.length

/-- Python truthiness of the `filter_ids` argument: `None` and `[]` are
falsy, a non-empty list is truthy. -/
def filterActive : Option (List Int) → Bool
  | none => false
  | some l => !l.isEmpty

/-- The result-collection loop of `search_reviews` (lines 108-118), walking
the FAISS candidates in order: skip negative labels; skip ids outside a
truthy `filter_ids`; append `(review_ids[i], score, review_texts[i])`; stop
once `len(results) >= k`.  An out-of-range metadata index raises
(`IndexError`, re-raised as `VectorDBException`), modelled by `none`. -/
def searchLoop (ids : List Int) (texts : List String) (filt : Option (List Int)) :
    List (Int × ℚ) → Nat → Option (List (Int × ℚ × String))
  | [], _ => some []
  | (i, score) :: rest, k =>
    if i < 0 then searchLoop ids texts filt rest k
    else
      match ids[i.toNat]? with
      | none => none
      | some rid =>
        if filterActive filt && !((filt.getD []).contains rid) then
          searchLoop ids texts filt rest k
        else
          match texts[i.toNat]? with
          | none => none
          | some txt =>
            if k ≤ 1 then some [(rid, score, txt)]
            else (searchLoop ids texts filt rest (k - 1)).map
              (fun res => (rid, score, txt) :: res)

/-- `search_reviews` (lines 76-125).  The query is passed as its normalized
embedding `q` (the encoder is external).  If `review_ids` is empty the
function returns `[]` before the FAISS call; otherwise it runs the FAISS
search with `requestedK` candidates and collects results.  `none` models the
raised `VectorDBException`. -/
def searchReviews (s : State) (q : Vec) (k : Nat) (filt : Option (List Int)) :
    Option (List (Int × ℚ × String)) :=
  if s.review_ids.length = 0 then some []
  else searchLoop s.review_ids s.review_texts filt
    (faissSearch s.vectors q (requestedK s k)) k

/-- One public operation on a service instance; `startupLoad` models tearing
the process down and constructing a fresh instance over the surviving
filesystem. -/
inductive Op
  | add (encoded : Option (List Vec)) (ids : List Int) (texts : List String)
  | remove (review_id : Int)
  | clear
  | startupLoad

/-- Effect of one operation on the state (the in-memory containers plus the
owned filesystem). -/
def applyOp (s : State) : Op → State
  | .add e ids texts => (addReviews e ids texts s).2
  | .remove x => (removeReview x s).2
  | .clear => clearIndex s
  | .startupLoad => startup s.files

/-- Run a sequence of operations from a fresh instance over an empty
filesystem. -/
def runOps (ops : List Op) : State := ops.foldl applyOp emptyState

/-- A well-formed `add` call: one id per text, and the external encoder, when
it succeeds, returns one embedding row per text. -/
def wfOp : Op → Prop
  | .add e ids texts =>
      ids.length = texts.length ∧ ∀ rows, e = some rows → rows.length = texts.length
  | _ => True

/-- The lockstep invariant of the spec:
`len(ids) == len(texts) == index.ntotal`. -/
def lockstep (s : State) : Prop :=
  s.review_ids.length = s.review_texts.length ∧ s.review_texts.length = s.vectors.length

/-- Concrete state used in several witnesses: two orthonormal stored vectors
with ids 1 and 2. -/
def twoVecState : State := ⟨[[1, 0], [0, 1]], [1, 2], ["a", "b"], []⟩

/-- Concrete state with one live slot (id 7) and one removed slot. -/
def oneRemovedState : State := ⟨[[1, 0], [0, 1]], [7, -1], ["x", ""], []⟩

/-- Concrete state whose single slot has been removed (sentinel id, empty
text); its vector is still in the index. -/
def removedOnlyState : State := ⟨[[1, 0]], [-1], [""], []⟩

/-- Concrete one-slot live state with id 5. -/
def oneLiveState : State := ⟨[[1, 0]], [5], ["great"], []⟩

/-- Result of the single `add_reviews([1], ["good"])` call of the round-trip
scenario, starting from a fresh instance over an empty filesystem. -/
def roundTripAdd : Option String × State :=
  addReviews (some [[1, 0]]) [1] ["good"] emptyState

/-- A concrete mixed operation sequence: a two-review add, a removal, a
process restart, another add, and a clear. -/
def mixedOps : List Op :=
  [Op.add (some [[1, 0], [0, 1]]) [1, 2] ["a", "b"], Op.remove 1, Op.startupLoad,
    Op.add (some [[1, 0]]) [3] ["c"], Op.clear]

theorem sumSq_nonneg (a : Vec) : 0 ≤ sumSq a := by
  induction a with
  | nil => simp [sumSq]
  | cons x t ih =>
    simp only [sumSq, List.map_cons, List.sum_cons] at *
    nlinarith [mul_self_nonneg x]

theorem cs_step (x y A B D : ℚ) (hA : 0 ≤ A) (hB : 0 ≤ B) (h : D ^ 2 ≤ A * B) :
    (x * y + D) ^ 2 ≤ (x * x + A) * (y * y + B) := by
  rcases eq_or_lt_of_le hB with hB0 | hBpos
  · have hD2 : D ^ 2 ≤ 0 := by rw [← hB0, mul_zero] at h; exact h
    have hD : D = 0 := pow_eq_zero_iff (n := 2) (by norm_num) |>.mp
      (le_antisymm hD2 (sq_nonneg D))
    subst hD
    rw [← hB0]
    nlinarith [mul_nonneg hA (mul_self_nonneg y)]
  · nlinarith [sq_nonneg (x * B - y * D),
      mul_nonneg (add_nonneg (mul_self_nonneg y) hB) (sub_nonneg.mpr h), hBpos]

/-- Cauchy-Schwarz for the list inner product, squared form. -/
theorem dot_sq_le (a : Vec) : ∀ b : Vec, dot a b ^ 2 ≤ sumSq a * sumSq b := by
  induction a with
  | nil => intro b; simp [dot, sumSq]
  | cons x t ih =>
    intro b
    cases b with
    | nil => simp [dot, sumSq]
    | cons y u =>
      have h := ih u
      have hA := sumSq_nonneg t
      have hB := sumSq_nonneg u
      simp only [dot, sumSq, List.zipWith_cons_cons, List.map_cons, List.sum_cons] at *
      exact cs_step x y _ _ _ hA hB h

/-- Inner products of unit-norm vectors lie in `[-1, 1]`. -/
theorem dot_unit_bounds (a b : Vec) (ha : sumSq a = 1) (hb : sumSq b = 1) :
    -1 ≤ dot a b ∧ dot a b ≤ 1 := by
  have h := dot_sq_le a b
  rw [ha, hb, mul_one] at h
  exact abs_le.mp ((sq_le_one_iff_abs_le_one (dot a b)).mp h)

theorem listIndex_lt_length (x : Int) (l : List Int) (h : x ∈ l) :
    listIndex x l < l.length := by
  induction l with
  | nil => cases h
  | cons a t ih =>
    by_cases hax : a = x
    · simp [listIndex, hax]
    · have hxt : x ∈ t := by
        cases h with
        | head => exact absurd rfl hax
        | tail _ h2 => exact h2
      have h3 := ih hxt
      simp only [listIndex, if_neg hax, List.length_cons]
      omega

/-- The collection loop appends at most `max k 1` results (`k` of them when
`k ≥ 1`; the `len(results) >= k` check runs only after an append, so `k = 0`
still lets one result through). -/
theorem searchLoop_length (ids : List Int) (texts : List String) (filt : Option (List Int)) :
    ∀ (cands : List (Int × ℚ)) (k : Nat) (res : List (Int × ℚ × String)),
      searchLoop ids texts filt cands k = some res → res.length ≤ max k 1 := by
  intro cands
  induction cands with
  | nil =>
    intro k res h
    simp only [searchLoop] at h
    cases h
    simp
  | cons c rest ih =>
    obtain ⟨i, score⟩ := c
    intro k res h
    simp only [searchLoop] at h
    split at h
    · exact ih k res h
    · split at h
      · exact absurd h (by simp)
      · split at h
        · exact ih k res h
        · split at h
          · exact absurd h (by simp)
          · split at h
            · cases h
              simp
            · rename_i hk1
              cases hr : searchLoop ids texts filt rest (k - 1) with
              | none => rw [hr] at h; exact absurd h (by simp)
              | some res2 =>
                rw [hr] at h
                simp only [Option.map_some'] at h
                cases h
                have h2 := ih (k - 1) res2 hr
                simp only [List.length_cons]
                omega

/-- Scores of collected results form a subsequence of the scores of the
non-padding candidates, in candidate order. -/
theorem searchLoop_scores_sublist (ids : List Int) (texts : List String)
    (filt : Option (List Int)) :
    ∀ (cands : List (Int × ℚ)) (k : Nat) (res : List (Int × ℚ × String)),
      searchLoop ids texts filt cands k = some res →
      List.Sublist (res.map (fun r => r.2.1))
        ((cands.filter (fun c => decide (0 ≤ c.1))).map (fun c => c.2)) := by
  intro cands
  induction cands with
  | nil =>
    intro k res h
    simp only [searchLoop] at h
    cases h
    simp
  | cons c rest ih =>
    obtain ⟨i, score⟩ := c
    intro k res h
    simp only [searchLoop] at h
    split at h
    · rename_i hi
      have hpad : (decide (0 ≤ (i, score).1)) = false := by
        simp only [decide_eq_false_iff_not, not_le]
        exact hi
      rw [List.filter_cons, hpad]
      simp only [Bool.false_eq_true, if_false]
      exact ih k res h
    · rename_i hi
      have hkeep : (decide (0 ≤ (i, score).1)) = true := by
        simp only [decide_eq_true_eq]
        omega
      rw [List.filter_cons, hkeep]
      simp only [if_true, List.map_cons]
      split at h
      · exact absurd h (by simp)
      · split at h
        · exact (ih k res h).cons score
        · split at h
          · exact absurd h (by simp)
          · split at h
            · cases h
              simp only [List.map_cons, List.map_nil]
              exact (List.nil_sublist _).cons₂ score
            · cases hr : searchLoop ids texts filt rest (k - 1) with
              | none => rw [hr] at h; exact absurd h (by simp)
              | some res2 =>
                rw [hr] at h
                simp only [Option.map_some'] at h
                cases h
                simp only [List.map_cons]
                exact (ih (k - 1) res2 hr).cons₂ score

/-- With a truthy allow-list, every collected result's id is in the list. -/
theorem searchLoop_filter_mem (ids : List Int) (texts : List String)
    (l : List Int) (hl : l ≠ []) :
    ∀ (cands : List (Int × ℚ)) (k : Nat) (res : List (Int × ℚ × String)),
      searchLoop ids texts (some l) cands k = some res →
      ∀ r ∈ res, r.1 ∈ l := by
  intro cands
  induction cands with
  | nil =>
    intro k res h
    simp only [searchLoop] at h
    cases h
    intro r hr
    cases hr
  | cons c rest ih =>
    obtain ⟨i, score⟩ := c
    intro k res h
    simp only [searchLoop] at h
    split at h
    · exact ih k res h
    · split at h
      · exact absurd h (by simp)
      · rename_i rid hrid
        split at h
        · exact ih k res h
        · rename_i hskip
          have hmem : rid ∈ l := by
            have hact : filterActive (some l) = true := by
              simp only [filterActive, Bool.not_eq_true']
              exact List.isEmpty_eq_false_iff_exists_mem.mpr
                (by cases l with
                    | nil => exact absurd rfl hl
                    | cons a t => exact ⟨a, List.mem_cons_self a t⟩)
            rw [hact, Bool.true_and, Bool.not_eq_true', Bool.not_eq_false] at hskip
            exact List.mem_of_elem_eq_true (by simpa [Option.getD] using hskip)
          split at h
          · exact absurd h (by simp)
          · split at h
            · cases h
              intro r hr
              rw [List.mem_singleton] at hr
              cases hr
              exact hmem
            · cases hr : searchLoop ids texts (some l) rest (k - 1) with
              | none => rw [hr] at h; exact absurd h (by simp)
              | some res2 =>
                rw [hr] at h
                simp only [Option.map_some'] at h
                cases h
                intro r hr2
                cases hr2 with
                | head => exact hmem
                | tail _ htl => exact ih (k - 1) res2 hr r htl

/-- The collection loop ignores the difference between `filter_ids = None`
and `filter_ids = []`: both are falsy. -/
theorem searchLoop_emptyFilter (ids : List Int) (texts : List String) :
    ∀ (cands : List (Int × ℚ)) (k : Nat),
      searchLoop ids texts (some []) cands k = searchLoop ids texts none cands k := by
  intro cands
  induction cands with
  | nil => intro k; rfl
  | cons c rest ih =>
    obtain ⟨i, score⟩ := c
    intro k
    by_cases hi : i < 0
    · simp only [searchLoop, if_pos hi]
      exact ih k
    · simp only [searchLoop, if_neg hi]
      cases hrid : ids[i.toNat]? with
      | none => rfl
      | some rid =>
        simp only [filterActive, List.isEmpty_nil, Bool.not_true, Bool.false_and,
          Bool.false_eq_true, if_false]
        cases htxt : texts[i.toNat]? with
        | none => rfl
        | some txt =>
          by_cases hk : k ≤ 1
          · simp only [if_pos hk]
          · simp only [if_neg hk, ih (k - 1)]

/-- FAISS always returns exactly as many candidate slots as were requested,
padding with label `-1` beyond `ntotal`. -/
theorem faissSearch_length (vecs : List Vec) (q : Vec) (kReq : Nat) :
    (faissSearch vecs q kReq).length = kReq := by
  simp only [faissSearch, List.length_append, List.length_take, List.length_replicate,
    List.length_insertionSort, ipScores, List.length_map, List.enum_length]
  omega

/-- The non-padding candidates are in non-increasing score order. -/
theorem faissSearch_filtered_pairwise (vecs : List Vec) (q : Vec) (kReq : Nat) :
    List.Pairwise scoreDesc ((faissSearch vecs q kReq).filter (fun c => decide (0 ≤ c.1))) := by
  have hpad : (List.replicate (kReq - vecs.length) ((-1 : Int), (0 : ℚ))).filter
      (fun c => decide (0 ≤ c.1)) = [] := by
    rw [List.filter_replicate]
    norm_num
  rw [faissSearch, List.filter_append, hpad, List.append_nil]
  exact (List.sorted_insertionSort scoreDesc (ipScores vecs q)).sublist
    ((List.filter_sublist _).trans (List.take_sublist _ _))

/-- Every non-padding candidate's score is the inner product of some stored
vector with the query. -/
theorem faissSearch_mem_score (vecs : List Vec) (q : Vec) (kReq : Nat) (c : Int × ℚ)
    (hc : c ∈ faissSearch vecs q kReq) (hpos : 0 ≤ c.1) :
    ∃ v ∈ vecs, c.2 = dot v q := by
  simp only [faissSearch, List.mem_append] at hc
  cases hc with
  | inl h =>
    have h2 : c ∈ List.insertionSort scoreDesc (ipScores vecs q) := List.mem_of_mem_take h
    have h3 : c ∈ ipScores vecs q := (List.perm_insertionSort _ _).mem_iff.mp h2
    simp only [ipScores, List.mem_map] at h3
    obtain ⟨p, hp, hpc⟩ := h3
    exact ⟨p.2, List.snd_mem_of_mem_enum hp, by rw [← hpc]⟩
  | inr h =>
    have h4 := List.eq_of_mem_replicate h
    rw [h4] at hpos
    exact absurd hpos (by norm_num)

/-- Every single operation preserves the lockstep invariant. -/
theorem applyOp_lockstep (s : State) (op : Op) (hs : lockstep s) (hop : wfOp op) :
    lockstep (applyOp s op) := by
  cases op with
  | add e ids texts =>
    obtain ⟨hlen, hrows⟩ := hop
    simp only [applyOp, addReviews]
    split
    · exact hs
    · cases e with
      | none => exact hs
      | some rows =>
        have hr := hrows rows rfl
        obtain ⟨h1, h2⟩ := hs
        refine ⟨?_, ?_⟩ <;>
          simp only [saveIndex, List.length_append, List.length_map] <;> omega
  | remove x =>
    simp only [applyOp, removeReview]
    obtain ⟨h1, h2⟩ := hs
    split
    · split
      · exact ⟨by simp [h1], by simp [h2]⟩
      · exact ⟨by simp [h1], h2⟩
    · exact ⟨h1, h2⟩
  | clear => exact ⟨rfl, rfl⟩
  | startupLoad =>
    simp only [applyOp, startup, loadIndex]
    split <;> exact ⟨rfl, rfl⟩

theorem foldl_lockstep :
    ∀ (ops : List Op) (s : State), lockstep s → (∀ op ∈ ops, wfOp op) →
      lockstep (List.foldl applyOp s ops) := by
  intro ops
  induction ops with
  | nil => intro s hs _; exact hs
  | cons op rest ih =>
    intro s hs hwf
    simp only [List.foldl_cons]
    exact ih (applyOp s op) (applyOp_lockstep s op hs (hwf op (List.mem_cons_self op rest)))
      (fun o ho => hwf o (List.mem_cons_of_mem op ho))

/-- Reading back the name just written yields the written contents. -/
theorem fsGet_fsWrite (fs : FS) (name : String) (d : FileData) :
    fsGet (fsWrite fs name d) name = some d := by
  simp [fsGet, fsWrite, List.find?]

/-- Setting the first occurrence of `x` to the sentinel erases `x` from a
list in which it occurred exactly once. -/
theorem not_mem_set_listIndex (l : List Int) (x : Int) (hcount : l.count x = 1)
    (hne : x ≠ -1) : x ∉ l.set (listIndex x l) (-1) := by
  induction l with
  | nil => simp
  | cons a t ih =>
    by_cases hax : a = x
    · subst hax
      simp only [listIndex, if_pos rfl, List.set_cons_zero]
      have ht : t.count a = 0 := by
        have := List.count_cons_self a t
        omega
      intro hmem
      cases hmem with
      | head => exact hne rfl
      | tail _ h2 => exact absurd h2 (List.count_eq_zero.mp ht)
    · have hct : t.count x = 1 := by
        have := List.count_cons x a t
        simp only [beq_iff_eq] at this
        rw [if_neg hax] at this
        omega
      simp only [listIndex, if_neg hax, List.set_cons_succ]
      intro hmem
      cases hmem with
      | head => exact hax rfl
      | tail _ h2 => exact absurd h2 (ih hct)

/-- C1, code bug.  Round-trip persistence fails on the code: a fresh
instance over an empty filesystem accepts `add_reviews([1], ["good"])`
(no error, `get_stats` reports one live entry and one vector) and the final
add writes the snapshot at `<path>.faiss` and `<path>.meta`; yet a freshly
constructed instance over that very filesystem starts empty
(`get_stats` reports 0 live entries, 0 vectors), because `_load_index`
looks only for `<path>.pkl` — a name `_save_index` never writes — and never
reads the vector structure back at all. -/
theorem roundTrip_reload_empty :
    roundTripAdd.1 = none
    ∧ getStats roundTripAdd.2 = ⟨1, 1⟩
    ∧ fsGet roundTripAdd.2.files (indexPath ++ ".meta") = some (.metaFile [1] ["good"])
    ∧ fsGet roundTripAdd.2.files (indexPath ++ ".faiss") = some (.faissFile [[1, 0]])
    ∧ fsGet roundTripAdd.2.files (indexPath ++ ".pkl") = none
    ∧ getStats (startup roundTripAdd.2.files) = ⟨0, 0⟩ := by
  with_unfolding_all decide

/-- C2, code bug.  A removed slot's tuple resurfaces in search results: after
adding review 5 and removing it, a `k = 1` unfiltered search returns the
sentinel tuple `(-1, score, "")` — the loop at lines 108-118 skips FAISS's
negative *positions* but never skips slots whose stored *id* is the
sentinel `-1`. -/
theorem removed_slot_resurfaces :
    (removeReview 5 oneLiveState).1 = true
    ∧ searchReviews (removeReview 5 oneLiveState).2 [1, 0] 1 none
        = some [(-1, 1, "")] := by
  with_unfolding_all decide

/-- Counterexample to C3 as stated: a batch whose only embedding row is the
zero vector (zero Euclidean norm) is not rejected — `add_reviews` raises
nothing, inserts the batch, and writes a snapshot. -/
theorem addReviews_zeroNorm_inserts :
    (addReviews (some [[0, 0]]) [9] ["zero"] emptyState).1 = none
    ∧ (addReviews (some [[0, 0]]) [9] ["zero"] emptyState).2.review_ids = [9]
    ∧ (addReviews (some [[0, 0]]) [9] ["zero"] emptyState).2.vectors.length = 1
    ∧ fsGet (addReviews (some [[0, 0]]) [9] ["zero"] emptyState).2.files (indexPath ++ ".meta")
        = some (.metaFile [9] ["zero"]) := by
  with_unfolding_all decide

/-- C3, amended.  If the embedding call fails, `add_reviews` raises the
index-mutation error, inserts nothing (state unchanged, so `get_stats`,
`search_reviews` and `get_review_by_id` are unaffected) and writes no
snapshot.  A zero-norm embedding row, however, is not a failure: NumPy's
division by a zero norm raises nothing, so for every successful embedding
result the whole batch is appended and a snapshot is written. -/
theorem addReviews_failure_atomic (s : State) (ids : List Int) (texts : List String)
    (hids : ids ≠ []) (htexts : texts ≠ []) :
    addReviews none ids texts s = (some "Failed to add reviews to vector database", s)
    ∧ ∀ rows : List Vec,
        (addReviews (some rows) ids texts s).1 = none
        ∧ (addReviews (some rows) ids texts s).2.review_ids = s.review_ids ++ ids
        ∧ (addReviews (some rows) ids texts s).2.review_texts = s.review_texts ++ texts
        ∧ (addReviews (some rows) ids texts s).2.vectors = s.vectors ++ rows.map normalizeRow
        ∧ fsGet (addReviews (some rows) ids texts s).2.files (indexPath ++ ".meta")
            = some (.metaFile (s.review_ids ++ ids) (s.review_texts ++ texts)) := by
  have h1 : ids.isEmpty = false := by
    cases ids with
    | nil => exact absurd rfl hids
    | cons a t => rfl
  have h2 : texts.isEmpty = false := by
    cases texts with
    | nil => exact absurd rfl htexts
    | cons a t => rfl
  refine ⟨?_, ?_⟩
  · simp [addReviews, h1, h2]
  · intro rows
    refine ⟨?_, ?_, ?_, ?_, ?_⟩ <;>
      simp [addReviews, h1, h2, saveIndex, fsGet_fsWrite]

/-- Witness for C3's amended theorem at a concrete input. -/
theorem addReviews_failure_atomic_witness :
    addReviews none [1] ["good"] emptyState
      = (some "Failed to add reviews to vector database", emptyState) :=
  (addReviews_failure_atomic emptyState [1] ["good"] (by decide) (by decide)).1

/-- C4.  Lockstep invariant: any sequence of well-formed operations from a
fresh instance (adds passing one id per text, the external encoder returning
one row per text, removals, clears and restarts) keeps
`len(review_ids) = len(review_texts) = index.ntotal`. -/
theorem lockstep_invariant (ops : List Op) (h : ∀ op ∈ ops, wfOp op) :
    lockstep (runOps ops) :=
  foldl_lockstep ops emptyState ⟨rfl, rfl⟩ h

/-- Witness for C4 on a concrete mixed operation sequence. -/
theorem lockstep_invariant_witness : lockstep (runOps mixedOps) := by
  refine lockstep_invariant mixedOps ?_
  intro op hop
  simp only [mixedOps, List.mem_cons, List.not_mem_nil, or_false] at hop
  rcases hop with h | h | h | h | h <;> subst h
  · exact ⟨rfl, fun rows hr => by cases hr; rfl⟩
  · trivial
  · trivial
  · exact ⟨rfl, fun rows hr => by cases hr; rfl⟩
  · trivial

/-- C5.  Search result shape: whenever `search_reviews` returns a result
sequence (for any state whose stored vectors are unit-norm, any unit-norm
query embedding, any `k ≥ 1` and any filter), the sequence has length at
most `k`, its scores are non-increasing, and every score lies in
`[-1, 1]`. -/
theorem search_result_shape (s : State) (q : Vec) (k : Nat) (filt : Option (List Int))
    (res : List (Int × ℚ × String)) (hk : 1 ≤ k)
    (hunit : ∀ v ∈ s.vectors, sumSq v = 1) (hq : sumSq q = 1)
    (h : searchReviews s q k filt = some res) :
    res.length ≤ k
    ∧ List.Pairwise (fun a b : Int × ℚ × String => b.2.1 ≤ a.2.1) res
    ∧ ∀ r ∈ res, -1 ≤ r.2.1 ∧ r.2.1 ≤ 1 := by
  rw [searchReviews] at h
  split at h
  · cases h
    exact ⟨by simp, List.Pairwise.nil, fun r hr => absurd hr (List.not_mem_nil r)⟩
  · have hlen := searchLoop_length s.review_ids s.review_texts filt _ k res h
    have hsub := searchLoop_scores_sublist s.review_ids s.review_texts filt _ k res h
    have hpw0 := faissSearch_filtered_pairwise s.vectors q (requestedK s k)
    refine ⟨by omega, ?_, ?_⟩
    · have hpw1 : List.Pairwise (fun x y : ℚ => y ≤ x)
          (((faissSearch s.vectors q (requestedK s k)).filter
            (fun c => decide (0 ≤ c.1))).map (fun c => c.2)) :=
        List.pairwise_map.mpr (hpw0.imp (fun hab => hab))
      exact List.pairwise_map.mp (hpw1.sublist hsub)
    · intro r hr
      have hmem : r.2.1 ∈ ((faissSearch s.vectors q (requestedK s k)).filter
          (fun c => decide (0 ≤ c.1))).map (fun c => c.2) :=
        hsub.subset (List.mem_map_of_mem (fun r => r.2.1) hr)
      obtain ⟨c, hcf, hcs⟩ := List.mem_map.mp hmem
      have hcpos : 0 ≤ c.1 := by
        have h5 := List.of_mem_filter hcf
        simpa using h5
      obtain ⟨v, hv, hvd⟩ :=
        faissSearch_mem_score s.vectors q (requestedK s k) c (List.mem_of_mem_filter hcf) hcpos
      rw [← hcs, hvd]
      exact dot_unit_bounds v q (hunit v hv) hq

/-- Witness for C5 at a concrete two-vector state and query. -/
theorem search_result_shape_witness :
    ([((1 : Int), (1 : ℚ), "a"), (2, 0, "b")] : List (Int × ℚ × String)).length ≤ 2 :=
  (search_result_shape twoVecState [1, 0] 2 none [(1, 1, "a"), (2, 0, "b")]
    (by decide)
    (by
      intro v hv
      simp only [twoVecState, List.mem_cons, List.not_mem_nil, or_false] at hv
      rcases hv with rfl | rfl <;> norm_num [sumSq])
    (by norm_num [sumSq])
    (by with_unfolding_all decide)).1

/-- C6.  Filter correctness: with a non-empty `filter_ids`, every returned
id belongs to the allow-list (regardless of higher-scoring entries outside
it); with `filter_ids` equal to `None` or `[]`, no filtering is applied —
the empty list behaves exactly like `None`. -/
theorem search_filter_allowlist (s : State) (q : Vec) (k : Nat) (l : List Int)
    (res : List (Int × ℚ × String)) (hl : l ≠ [])
    (h : searchReviews s q k (some l) = some res) :
    (∀ r ∈ res, r.1 ∈ l)
    ∧ searchReviews s q k (some []) = searchReviews s q k none := by
  constructor
  · rw [searchReviews] at h
    split at h
    · cases h
      exact fun r hr => absurd hr (List.not_mem_nil r)
    · exact searchLoop_filter_mem s.review_ids s.review_texts l hl _ k res h
  · rw [searchReviews, searchReviews]
    split
    · rfl
    · exact searchLoop_emptyFilter s.review_ids s.review_texts _ k

/-- Witness for C6: filtering to `[1]` keeps only id 1 even though id 2
scores higher on this query. -/
theorem search_filter_allowlist_witness : ((1 : Int), (0 : ℚ), "a").1 ∈ [(1 : Int)] :=
  (search_filter_allowlist twoVecState [0, 1] 1 [1] [(1, 0, "a")]
    (by decide) (by with_unfolding_all decide)).1 (1, 0, "a") (List.mem_singleton.mpr rfl)

/-- Counterexample to C7 as stated: with one live and one removed slot,
the code requests `min(2k, len(review_ids)) = 2` candidates at `k = 1`,
not `min(2k, live_count) = 1`. -/
theorem overfetch_counts_removed_slots :
    requestedK oneRemovedState 1 ≠ min (1 * 2) (liveCount oneRemovedState) := by
  decide

/-- C7, amended.  For every non-empty index, the FAISS query at line 104
is asked for exactly `min(2k, len(review_ids))` candidates — the metadata
slot count *including* removed slots (which also equals `ntotal` in lockstep
states) — and receives exactly that many. -/
theorem overfetch_amended (s : State) (q : Vec) (k : Nat) (h : s.review_ids ≠ []) :
    requestedK s k = min (k * 2) s.review_ids.length
    ∧ (faissSearch s.vectors q (requestedK s k)).length = min (k * 2) s.review_ids.length :=
  ⟨rfl, faissSearch_length s.vectors q (requestedK s k)⟩

/-- Witness for C7's amended theorem. -/
theorem overfetch_amended_witness :
    (faissSearch oneRemovedState.vectors [1, 0] (requestedK oneRemovedState 1)).length
      = min (1 * 2) oneRemovedState.review_ids.length :=
  (overfetch_amended oneRemovedState [1, 0] 1 (by decide)).2

/-- Counterexample to C8 as stated: on a state whose only slot is removed,
no live slot carries id `-1`, yet `remove_review(-1)` returns `True` (it
finds the sentinel id itself), where the claim requires `False`. -/
theorem remove_sentinel_returns_true : (removeReview (-1) removedOnlyState).1 = true := by
  with_unfolding_all decide

/-- C8, amended, for external ids other than the sentinel `-1` and states
with texts at least as long as ids (all reachable states): if no slot
carries `x`, `remove_review(x)` returns `False` with no error and no state
change; if some slot carries `x` (such a slot is necessarily live since
`x ≠ -1`), the first one is marked — id set to `-1`, text to `""` — and
`True` is returned; and when `x` occurred in exactly one slot, a second call
returns `False` and changes nothing.  (For `x = -1` the first clause fails —
see the counterexample — and when `x` occupies several slots the second call
productively removes the next one instead of reporting \x22not found\x22.) -/
theorem remove_semantics (s : State) (x : Int) (hx : x ≠ -1)
    (hlen : s.review_ids.length ≤ s.review_texts.length) :
    (x ∉ s.review_ids → removeReview x s = (false, s))
    ∧ (x ∈ s.review_ids →
        removeReview x s =
          (true, { s with review_ids := s.review_ids.set (listIndex x s.review_ids) (-1),
                          review_texts := s.review_texts.set (listIndex x s.review_ids) "" }))
    ∧ (x ∈ s.review_ids → s.review_ids.count x = 1 →
        removeReview x (removeReview x s).2 = (false, (removeReview x s).2)) := by
  have hmain : x ∈ s.review_ids →
      removeReview x s =
        (true, { s with review_ids := s.review_ids.set (listIndex x s.review_ids) (-1),
                        review_texts := s.review_texts.set (listIndex x s.review_ids) "" }) := by
    intro hmem
    have hidx : listIndex x s.review_ids < s.review_texts.length :=
      lt_of_lt_of_le (listIndex_lt_length x s.review_ids hmem) hlen
    rw [removeReview, if_pos hmem, if_pos hidx]
  refine ⟨?_, hmain, ?_⟩
  · intro hnm
    rw [removeReview, if_neg hnm]
  · intro hmem hcount
    rw [hmain hmem]
    have hgone : x ∉ s.review_ids.set (listIndex x s.review_ids) (-1) :=
      not_mem_set_listIndex s.review_ids x hcount hx
    rw [removeReview, if_neg hgone]

/-- Witness for C8's amended theorem: removing the only live id succeeds. -/
theorem remove_semantics_witness :
    removeReview 5 oneLiveState
      = (true, { oneLiveState with review_ids := [-1], review_texts := [""] }) := by
  have h := (remove_semantics oneLiveState 5 (by decide) (by decide)).2.1
    (by decide)
  rw [h]
  with_unfolding_all decide

/-- C9.  `get_review_by_id(x)` returns `(x, text at the first slot whose id
is x)` whenever `x` occurs anywhere in `review_ids` — including the sentinel
`-1` of removed slots — and `None` otherwise; it is a pure read (the model
returns only the pair, touching no state) and the source wraps the body in
a handler returning `None`, so it never raises.  Stated for states whose
texts cover the ids (all reachable states). -/
theorem getReviewById_first_slot (s : State) (x : Int)
    (hlen : s.review_ids.length ≤ s.review_texts.length) :
    (x ∈ s.review_ids →
      ∃ t, s.review_texts[listIndex x s.review_ids]? = some t
        ∧ getReviewById x s = some (x, t))
    ∧ (x ∉ s.review_ids → getReviewById x s = none) := by
  constructor
  · intro hmem
    have hidx : listIndex x s.review_ids < s.review_texts.length :=
      lt_of_lt_of_le (listIndex_lt_length x s.review_ids hmem) hlen
    refine ⟨s.review_texts[listIndex x s.review_ids], List.getElem?_eq_getElem hidx, ?_⟩
    rw [getReviewById, if_pos hmem, List.getElem?_eq_getElem hidx]
  · intro hnm
    rw [getReviewById, if_neg hnm]

/-- Witness for C9 on a concrete state. -/
theorem getReviewById_first_slot_witness : getReviewById 5 oneLiveState = some (5, "great") := by
  obtain ⟨t, ht, hg⟩ := (getReviewById_first_slot oneLiveState 5 (by decide)).1 (by decide)
  have ht2 : t = "great" := by
    rw [show oneLiveState.review_texts[listIndex 5 oneLiveState.review_ids]?
          = some "great" from by with_unfolding_all decide] at ht
    cases ht
    rfl
  rw [hg, ht2]

/-- C10.  Sentinel collision: on any state (with texts covering ids, as in
all reachable states) containing at least one removed slot, `remove_review(-1)`
returns `True`, re-marking the first removed slot — the sentinel is not
excluded from the public removal interface's id space. -/
theorem remove_sentinel_collision (s : State) (h : (-1 : Int) ∈ s.review_ids)
    (hlen : s.review_ids.length ≤ s.review_texts.length) :
    (removeReview (-1) s).1 = true
    ∧ (removeReview (-1) s).2.review_ids
        = s.review_ids.set (listIndex (-1) s.review_ids) (-1)
    ∧ (removeReview (-1) s).2.review_texts
        = s.review_texts.set (listIndex (-1) s.review_ids) "" := by
  have hidx : listIndex (-1) s.review_ids < s.review_texts.length :=
    lt_of_lt_of_le (listIndex_lt_length (-1) s.review_ids h) hlen
  rw [removeReview, if_pos h, if_pos hidx]
  exact ⟨rfl, rfl, rfl⟩

/-- Witness for C10 at a concrete state with one removed slot. -/
theorem remove_sentinel_collision_witness :
    (removeReview (-1) removedOnlyState).1 = true :=
  (remove_sentinel_collision removedOnlyState (by decide) (by decide)).1

end VectorDB

